import Mathlib

/-!
Verification of the Hearth process substrate against its specification.

This file is a shallow embedding of the reference-counted process store
(`crates/hearth-core/src/process/store.rs`), the service registry
(`crates/hearth-core/src/process/registry.rs`), the lump guest-ABI module
(`crates/hearth-cognito/src/lib.rs`) and the process-id packing
(`crates/hearth-types/src/lib.rs`).

Modelling conventions:

* Handles are `Nat` indices into a slab modelled as `List (Option ProcessWrapper)`.
* Rust panics (invalid handle) are modelled by `Option`: `none` means the
  operation panicked.
* The atomic `usize` reference count is a `Nat` reduced mod `2 ^ 64`; the
  `fetch_add`/`fetch_sub` wrap-around of the source is kept.
* `ProcessEntry` is instantiated at the repository's `MockProcessEntry`
  (the entry type used by every store test): its `on_signal` forwards the
  signal into an mpsc channel, succeeding exactly when the receiving end of
  the channel is still held.  The field `accepts` records whether the
  receiver is held, and `mailbox` is the list of signals received so far.
  `on_insert` and `on_remove` only log and are no-ops here.
* `dec_ref` recurses through link cascades; the recursion is fuelled.  All
  store operations take the fuel first; two runs with the same fuel agree,
  and every theorem below is stated for the fuel it needs.
-/

/-- A capability: an owning handle plus permission bits.

Modelled from the spec: the file `process/context.rs` that defines
`Capability` is not in the tree (only its callers are).  Per the spec a
capability is "(handle, permission flags)"; `clone(store)` is "`inc_ref`;
copy" and `free(store)` is "`dec_ref`".  Permission bits are a plain `Nat`
bit mask; no claim below inspects them beyond equality. -/
structure Capability where
  handle : Nat
  flags : Nat
deriving DecidableEq

/-- A message signal: a data payload plus transferred capabilities
(`Message` in `store.rs`). -/
structure Message where
  data : List Nat
  caps : List Capability
deriving DecidableEq

/-- A signal sent to a process (`Signal` in `store.rs`). -/
inductive Signal where
  | kill : Signal
  | unlink (subject : Nat) : Signal
  | message (msg : Message) : Signal
deriving DecidableEq

/-- One slab slot: `ProcessWrapper` of `store.rs` with the inner
`MockProcessEntry` flattened into `accepts`/`mailbox` (see the header). -/
structure ProcessWrapper where
  is_alive : Bool
  linked : List Nat
  ref_count : Nat
  accepts : Bool
  mailbox : List Signal
deriving DecidableEq

/-- The process store: a slab of process entries (`ProcessStore` in
`store.rs`), the slot index being the handle. -/
structure ProcessStore where
  entries : List (Option ProcessWrapper)
deriving DecidableEq

/-- Reading a slot; `none` both for an out-of-range index and a freed slot.
This is the store's private `get`, which panics (here: `none`) on an
invalid handle. -/
def ProcessStore.get (s : ProcessStore) (h : Nat) : Option ProcessWrapper :=
  match s.entries[h]? with
  | none => none
  | some o => o

/-- Overwriting a (valid) slot. -/
def ProcessStore.set (s : ProcessStore) (h : Nat) (w : ProcessWrapper) : ProcessStore :=
  ⟨s.entries.set h (some w)⟩

/-- Freeing a slot (`self.entries.remove(handle)` of the sharded slab). -/
def ProcessStore.remove (s : ProcessStore) (h : Nat) : ProcessStore :=
  ⟨s.entries.set h none⟩

/-- Validity of a handle (the test helper `contains` of `store.rs`). -/
def ProcessStore.contains (s : ProcessStore) (h : Nat) : Bool :=
  (s.get h).isSome

/-- The first vacant slot of a slab, or its length if it is full: the slot
`vacant_entry` hands out. -/
def vacantIndex {α : Type} : List (Option α) → Nat
  | [] => 0
  | none :: _ => 0
  | some _ :: rest => vacantIndex rest + 1

/-- Inserting a fresh entry: alive, no links, reference count 1
(`ProcessStore::insert`).  `accepts` says whether the mock entry keeps its
channel receiver (`insert_forward`) or drops it (`insert_mock`). -/
def ProcessStore.insert (s : ProcessStore) (accepts : Bool) : Nat × ProcessStore :=
  let h := vacantIndex s.entries
  let w : ProcessWrapper :=
    { is_alive := true, linked := [], ref_count := 1, accepts := accepts, mailbox := [] }
  if h < s.entries.length then (h, ⟨s.entries.set h (some w)⟩)
  else (h, ⟨s.entries ++ [some w]⟩)

/-- `ProcessStore::is_alive`. -/
def ProcessStore.is_alive (s : ProcessStore) (h : Nat) : Option Bool :=
  (s.get h).map fun w => w.is_alive

/-- The reference count of a handle (observable for the theorems below). -/
def ProcessStore.refCount (s : ProcessStore) (h : Nat) : Option Nat :=
  (s.get h).map fun w => w.ref_count

/-- The mailbox of a handle (observable for the theorems below). -/
def ProcessStore.mailboxOf (s : ProcessStore) (h : Nat) : Option (List Signal) :=
  (s.get h).map fun w => w.mailbox

/-- `ProcessStore::inc_ref`: `fetch_add(1)` on the handle's count. -/
def ProcessStore.inc_ref (s : ProcessStore) (h : Nat) : Option ProcessStore :=
  match s.get h with
  | none => none
  | some w => some (s.set h { w with ref_count := (w.ref_count + 1) % 2 ^ 64 })

/-- `ProcessStore::dec_ref`: `fetch_sub(1)`; if the previous count was 1,
run `on_remove` (a no-op for the mock entry), decrement every handle still
in `linked`, then free the slot.  During the cascade the slot is still
present with count 0, exactly as in the source, where `entries.remove`
runs only after the loop.  The recursion through the cascade is fuelled. -/
def ProcessStore.dec_ref : Nat → ProcessStore → Nat → Option ProcessStore
  | 0, _, _ => none
  | fuel + 1, s, h =>
    match s.get h with
    | none => none
    | some w =>
      if w.ref_count = 1 then
        let s1 := s.set h { w with ref_count := 0 }
        match w.linked.foldl
            (fun acc c => acc.bind fun st => ProcessStore.dec_ref fuel st c) (some s1) with
        | none => none
        | some s2 => some (s2.remove h)
      else
        some (s.set h { w with ref_count := (w.ref_count + (2 ^ 64 - 1)) % 2 ^ 64 })

/-- `Capability::free`.

Modelled from the spec: `context.rs` is not in the tree; the spec says
`free(store)` is "`dec_ref`". -/
def Capability.free (fuel : Nat) (c : Capability) (s : ProcessStore) : Option ProcessStore :=
  ProcessStore.dec_ref fuel s c.handle

/-- `Capability::clone`.

Modelled from the spec: `context.rs` is not in the tree; the spec says
`clone(store)` is "`inc_ref`; copy". -/
def Capability.clone (c : Capability) (s : ProcessStore) : Option (Capability × ProcessStore) :=
  (s.inc_ref c.handle).map fun s2 => (⟨c.handle, c.flags⟩, s2)

/-- Freeing the capabilities of a message in order (the loop of
`Message::free`). -/
def capsFree (fuel : Nat) : ProcessStore → List Capability → Option ProcessStore
  | s, [] => some s
  | s, c :: rest =>
    match Capability.free fuel c s with
    | none => none
    | some s2 => capsFree fuel s2 rest

/-- `Message::free`: frees every carried capability. -/
def Message.free (fuel : Nat) (m : Message) (s : ProcessStore) : Option ProcessStore :=
  capsFree fuel s m.caps

/-- Cloning the capabilities of a message in order (the `map` of
`Message::clone`). -/
def capsClone : ProcessStore → List Capability → Option (List Capability × ProcessStore)
  | s, [] => some ([], s)
  | s, c :: rest =>
    match c.clone s with
    | none => none
    | some (c2, s2) =>
      match capsClone s2 rest with
      | none => none
      | some (cs, s3) => some (c2 :: cs, s3)

/-- `Message::clone`: copies the data and clones every carried capability. -/
def Message.clone (m : Message) (s : ProcessStore) : Option (Message × ProcessStore) :=
  (capsClone s m.caps).map fun p => (⟨m.data, p.1⟩, p.2)

/-- `Signal::clone` of `store.rs`: `Kill` is trivial, `Unlink` increments
its subject, `Message` clones recursively. -/
def Signal.clone (sig : Signal) (s : ProcessStore) : Option (Signal × ProcessStore) :=
  match sig with
  | .kill => some (.kill, s)
  | .unlink subject => (s.inc_ref subject).map fun s2 => (.unlink subject, s2)
  | .message m => (m.clone s).map fun p => (.message p.1, p.2)

/-- `Signal::free` of `store.rs`.  NOTE: the source really calls
`store.inc_ref(subject)` in the `Unlink` arm (store.rs line 307); this is
kept as written, bug and all. -/
def Signal.free (fuel : Nat) (sig : Signal) (s : ProcessStore) : Option ProcessStore :=
  match sig with
  | .kill => some s
  | .unlink subject => s.inc_ref subject
  | .message m => m.free fuel s

/-- `ProcessStore::send_signal`: dead target frees the signal; otherwise the
mock entry's `on_signal` either enqueues the signal (receiver held) or
rejects it, in which case the store frees the returned unsent signal. -/
def ProcessStore.send_signal (fuel : Nat) (s : ProcessStore) (h : Nat) (sig : Signal) :
    Option ProcessStore :=
  match s.get h with
  | none => none
  | some w =>
    if w.is_alive then
      if w.accepts then some (s.set h { w with mailbox := w.mailbox ++ [sig] })
      else Signal.free fuel sig s
    else Signal.free fuel sig s

/-- `ProcessStore::send`: wraps the message as a signal. -/
def ProcessStore.send (fuel : Nat) (s : ProcessStore) (h : Nat) (m : Message) :
    Option ProcessStore :=
  ProcessStore.send_signal fuel s h (.message m)

/-- Sending `Unlink {subject}` to each drained link in order (the `for`
loop of `ProcessStore::kill`). -/
def sendUnlinks (fuel : Nat) (subject : Nat) : ProcessStore → List Nat → Option ProcessStore
  | s, [] => some s
  | s, obj :: rest =>
    match ProcessStore.send_signal fuel s obj (.unlink subject) with
    | none => none
    | some s2 => sendUnlinks fuel subject s2 rest

/-- `ProcessStore::kill`: swap `is_alive` to false; if it was true, deliver
`Kill` to the entry itself (the source ignores the `on_signal` result
here), drain `linked`, and send `Unlink {subject := h}` to every drained
object.  A second kill takes the `else` branch and does nothing. -/
def ProcessStore.kill (fuel : Nat) (s : ProcessStore) (h : Nat) : Option ProcessStore :=
  match s.get h with
  | none => none
  | some w =>
    if w.is_alive then
      let w2 : ProcessWrapper :=
        { w with
          is_alive := false
          mailbox := if w.accepts then w.mailbox ++ [Signal.kill] else w.mailbox
          linked := [] }
      sendUnlinks fuel h (s.set h w2) w.linked
    else some s

/-- `ProcessStore::link`: with a live subject, a not-yet-linked object is
ref-incremented and pushed onto `subject.linked` (re-reading the entry so
that a self-link sees its own increment); a dead subject increments the
object and immediately sends `Unlink {subject}` to it. -/
def ProcessStore.link (fuel : Nat) (s : ProcessStore) (subject object : Nat) :
    Option ProcessStore :=
  match s.get subject with
  | none => none
  | some w =>
    if w.is_alive then
      if w.linked.contains object then some s
      else
        match s.inc_ref object with
        | none => none
        | some s2 =>
          match s2.get subject with
          | none => none
          | some w2 => some (s2.set subject { w2 with linked := w2.linked ++ [object] })
    else
      match s.inc_ref object with
      | none => none
      | some s2 => ProcessStore.send_signal fuel s2 object (.unlink subject)

/-- Lookup in an association list of services (the read side of the
`HashMap<String, Capability>` of `registry.rs`). -/
def lookupService : List (String × Capability) → String → Option Capability
  | [], _ => none
  | (n, c) :: rest, name => if n = name then some c else lookupService rest name

/-- Removal of a binding (the overwrite side of `HashMap::insert`). -/
def removeService : List (String × Capability) → String → List (String × Capability)
  | [], _ => []
  | (n, c) :: rest, name =>
    if n = name then removeService rest name else (n, c) :: removeService rest name

/-- The service registry of `registry.rs`: a map from service name to
capability, modelled as an association list with unique keys maintained by
`Registry.insert`. -/
structure Registry where
  services : List (String × Capability)
deriving DecidableEq

/-- `Registry::get`: looks the name up and clones the stored capability
out of the store (`self.services.lock().get(...)?.clone(store)`).  The
store is threaded explicitly because `clone` increments the target's
reference count.  Note the source consults only the map: it never checks
whether the capability's process is still alive. -/
def Registry.get (r : Registry) (s : ProcessStore) (name : String) :
    Option (Capability × ProcessStore) :=
  match lookupService r.services name with
  | none => none
  | some cap => cap.clone s

/-- `Registry::insert`: binds the name and returns the displaced previous
capability, exactly like `HashMap::insert`. -/
def Registry.insert (r : Registry) (name : String) (cap : Capability) :
    Registry × Option Capability :=
  (⟨(name, cap) :: removeService r.services name⟩, lookupService r.services name)

/-- A lump held in the per-guest slab (`LocalLump` of hearth-cognito). -/
structure LocalLump where
  id : List Nat
  bytes : List Nat
deriving DecidableEq

/-- The host lump store.

Modelled from the spec: hearth-core's `lump` module (`LumpStoreImpl`) is
not in the tree.  Per the spec it is a content-addressed blob store;
`get_lump` returns the blob for a 32-byte hash when present. -/
structure LumpStoreImpl where
  lumps : List (List Nat × List Nat)
deriving DecidableEq

/-- Content-addressed lookup in a list of (id, bytes) pairs. -/
def lumpsLookup : List (List Nat × List Nat) → List Nat → Option (List Nat)
  | [], _ => none
  | (i, b) :: rest, id => if i = id then some b else lumpsLookup rest id

/-- Modelled from the spec: `LumpStoreImpl::get_lump`, the content-addressed
lookup used by `LumpAbi::from_id` (its call site shows it returns an
`Option` of the blob's bytes). -/
def LumpStoreImpl.get_lump (st : LumpStoreImpl) (id : List Nat) : Option (List Nat) :=
  lumpsLookup st.lumps id

/-- Insertion into a slab (`slab::Slab::insert`): the first vacant slot is
reused, a full slab grows by one; the chosen index is returned. -/
def slabInsert (slab : List (Option LocalLump)) (x : LocalLump) :
    Nat × List (Option LocalLump) :=
  let h := vacantIndex slab
  if h < slab.length then (h, slab.set h (some x)) else (h, slab ++ [some x])

/-- Reading a slab slot. -/
def slabGet (slab : List (Option LocalLump)) (h : Nat) : Option LocalLump :=
  match slab[h]? with
  | none => none
  | some o => o

/-- The `hearth::lump` guest ABI module state (`LumpAbi` of
hearth-cognito): the shared host lump store and the per-guest slab of
loaded lumps. -/
structure LumpAbi where
  lump_store : LumpStoreImpl
  lump_handles : List (Option LocalLump)
deriving DecidableEq

/-- `LumpAbi::from_id` on an id already read from guest memory: look the
hash up in the host lump store; if absent, fail with a diagnostic string
(the guest trap) leaving the state as it was; otherwise insert the blob
into the per-guest slab and return the slab index.  The second component
is the post-call ABI state (`&mut self` in the source). -/
def LumpAbi.from_id (abi : LumpAbi) (id : List Nat) : Except String Nat × LumpAbi :=
  match abi.lump_store.get_lump id with
  | none => (.error "lump id not found in lump store", abi)
  | some bytes =>
    let p := slabInsert abi.lump_handles { id := id, bytes := bytes }
    (.ok p.1, { abi with lump_handles := p.2 })

/-- A global process id (`ProcessId(pub u64)` of hearth-types). -/
structure ProcessId where
  val : Nat
deriving DecidableEq

/-- A peer id (`PeerId(pub u32)` of hearth-types). -/
structure PeerId where
  val : Nat
deriving DecidableEq

/-- A peer-local process id (`LocalProcessId(pub u32)` of hearth-types). -/
structure LocalProcessId where
  val : Nat
deriving DecidableEq

/-- `ProcessId::split`: the peer id is the high 32 bits, the local process
id the low 32 bits (both `as u32` truncations of the source are kept). -/
def ProcessId.split (x : ProcessId) : PeerId × LocalProcessId :=
  (⟨(x.val >>> 32) % 2 ^ 32⟩, ⟨x.val % 2 ^ 32⟩)

/-- `ProcessId::from_peer_process`: `((peer as u64) << 32) | (pid as u64)`,
reduced mod `2 ^ 64` as a `u64`. -/
def ProcessId.from_peer_process (peer : PeerId) (pid : LocalProcessId) : ProcessId :=
  ⟨((peer.val <<< 32) ||| pid.val) % 2 ^ 64⟩

/-! ### Slot access lemmas -/

theorem ProcessStore.lt_of_get {s : ProcessStore} {h : Nat} {w : ProcessWrapper}
    (hs : s.get h = some w) : h < s.entries.length ∧ s.entries[h]? = some (some w) := by
  unfold ProcessStore.get at hs
  cases e : s.entries[h]? with
  | none => rw [e] at hs; cases hs
  | some o =>
    rw [e] at hs
    subst hs
    refine ⟨?_, rfl⟩
    by_contra hge
    rw [List.getElem?_eq_none (Nat.le_of_not_lt hge)] at e
    cases e

theorem ProcessStore.get_set_self {s : ProcessStore} {h : Nat} {w0 : ProcessWrapper}
    (hs : s.get h = some w0) (w : ProcessWrapper) : (s.set h w).get h = some w := by
  obtain ⟨hlt, -⟩ := ProcessStore.lt_of_get hs
  unfold ProcessStore.get ProcessStore.set
  simp [List.getElem?_set_self hlt]

theorem ProcessStore.get_set_ne (s : ProcessStore) (h : Nat) (w : ProcessWrapper) {g : Nat}
    (hne : g ≠ h) : (s.set h w).get g = s.get g := by
  unfold ProcessStore.get ProcessStore.set
  rw [List.getElem?_set_ne (fun e => hne e.symm)]

theorem ProcessStore.get_remove_ne (s : ProcessStore) (h : Nat) {g : Nat}
    (hne : g ≠ h) : (s.remove h).get g = s.get g := by
  unfold ProcessStore.get ProcessStore.remove
  rw [List.getElem?_set_ne (fun e => hne e.symm)]

theorem ProcessStore.get_remove_self (s : ProcessStore) (h : Nat) :
    (s.remove h).get h = none := by
  unfold ProcessStore.get ProcessStore.remove
  by_cases hlt : h < s.entries.length
  · simp [List.getElem?_set_self hlt]
  · rw [List.getElem?_eq_none]
    simp [Nat.le_of_not_lt hlt]

theorem ProcessStore.isSome_get_set {s : ProcessStore} {h : Nat} {w0 : ProcessWrapper}
    (hs : s.get h = some w0) (w : ProcessWrapper) (g : Nat) :
    ((s.set h w).get g).isSome = (s.get g).isSome := by
  by_cases hg : g = h
  · subst hg
    rw [ProcessStore.get_set_self hs, hs]
    rfl
  · rw [ProcessStore.get_set_ne s h w hg]

theorem ProcessStore.isSome_of_get {s : ProcessStore} {h : Nat} {w : ProcessWrapper}
    (hs : s.get h = some w) : (s.get h).isSome = true := by rw [hs]; rfl

/-! ### What a reference decrement can do to the store

`dec_ref` only rewrites reference counts and frees slots: every entry that
survives keeps its alive flag, link list, channel state and mailbox.  The
relation `Shrinks` captures this and is preserved by the cascade. -/

/-- Entry `w'` is entry `w` with at most the reference count changed. -/
def EntryShrinks (w' w : ProcessWrapper) : Prop :=
  w'.is_alive = w.is_alive ∧ w'.linked = w.linked ∧ w'.accepts = w.accepts ∧
    w'.mailbox = w.mailbox

/-- Every entry of `s'` descends from the same slot of `s` with at most the
reference count changed (slots may also have been freed). -/
def Shrinks (s s' : ProcessStore) : Prop :=
  ∀ g w', s'.get g = some w' → ∃ w, s.get g = some w ∧ EntryShrinks w' w

theorem entryShrinksRefl (w : ProcessWrapper) : EntryShrinks w w :=
  ⟨rfl, rfl, rfl, rfl⟩

theorem entryShrinksTrans {w1 w2 w3 : ProcessWrapper}
    (h12 : EntryShrinks w1 w2) (h23 : EntryShrinks w2 w3) : EntryShrinks w1 w3 :=
  ⟨h12.1.trans h23.1, h12.2.1.trans h23.2.1, h12.2.2.1.trans h23.2.2.1,
    h12.2.2.2.trans h23.2.2.2⟩

theorem shrinksRefl (s : ProcessStore) : Shrinks s s :=
  fun _ w' hg => ⟨w', hg, entryShrinksRefl w'⟩

theorem shrinksTrans {s1 s2 s3 : ProcessStore}
    (h12 : Shrinks s1 s2) (h23 : Shrinks s2 s3) : Shrinks s1 s3 := by
  intro g w' hg
  obtain ⟨w2, hw2, e23⟩ := h23 g w' hg
  obtain ⟨w1, hw1, e12⟩ := h12 g w2 hw2
  exact ⟨w1, hw1, entryShrinksTrans e23 e12⟩

theorem Shrinks.set_ref_count {s : ProcessStore} {h : Nat} {w : ProcessWrapper}
    (hs : s.get h = some w) (n : Nat) :
    Shrinks s (s.set h { w with ref_count := n }) := by
  intro g w' hg
  by_cases hgh : g = h
  · subst hgh
    rw [ProcessStore.get_set_self hs] at hg
    exact ⟨w, hs, by cases hg; exact ⟨rfl, rfl, rfl, rfl⟩⟩
  · rw [ProcessStore.get_set_ne s h _ hgh] at hg
    exact ⟨w', hg, entryShrinksRefl w'⟩

theorem Shrinks.remove (s : ProcessStore) (h : Nat) : Shrinks s (s.remove h) := by
  intro g w' hg
  by_cases hgh : g = h
  · subst hgh
    rw [ProcessStore.get_remove_self] at hg
    cases hg
  · rw [ProcessStore.get_remove_ne s h hgh] at hg
    exact ⟨w', hg, entryShrinksRefl w'⟩

theorem foldl_bind_none {fuel : Nat} (l : List Nat) :
    List.foldl (fun acc c => acc.bind fun st => ProcessStore.dec_ref fuel st c)
      (none : Option ProcessStore) l = none := by
  induction l with
  | nil => rfl
  | cons c rest ih => simpa using ih

theorem foldl_dec_shrinks {fuel : Nat}
    (IH : ∀ s h s', ProcessStore.dec_ref fuel s h = some s' → Shrinks s s') :
    ∀ (l : List Nat) (s s2 : ProcessStore),
      List.foldl (fun acc c => acc.bind fun st => ProcessStore.dec_ref fuel st c)
        (some s) l = some s2 → Shrinks s s2 := by
  intro l
  induction l with
  | nil => intro s s2 hf; cases hf; exact shrinksRefl s
  | cons c rest ih =>
    intro s s2 hf
    simp only [List.foldl_cons, Option.some_bind] at hf
    cases hd : ProcessStore.dec_ref fuel s c with
    | none => rw [hd, foldl_bind_none] at hf; cases hf
    | some s1 =>
      rw [hd] at hf
      exact shrinksTrans (IH s c s1 hd) (ih s1 s2 hf)

theorem dec_ref_succ (fuel : Nat) (s : ProcessStore) (h : Nat) :
    ProcessStore.dec_ref (fuel + 1) s h =
      match s.get h with
      | none => none
      | some w =>
        if w.ref_count = 1 then
          match w.linked.foldl
              (fun acc c => acc.bind fun st => ProcessStore.dec_ref fuel st c)
              (some (s.set h { w with ref_count := 0 })) with
          | none => none
          | some s2 => some (s2.remove h)
        else
          some (s.set h { w with ref_count := (w.ref_count + (2 ^ 64 - 1)) % 2 ^ 64 }) := rfl

theorem dec_ref_shrinks :
    ∀ (fuel : Nat) (s : ProcessStore) (h : Nat) (s' : ProcessStore),
      ProcessStore.dec_ref fuel s h = some s' → Shrinks s s' := by
  intro fuel
  induction fuel with
  | zero => intro s h s' hd; cases hd
  | succ fuel ih =>
    intro s h s' hd
    rw [dec_ref_succ] at hd
    cases hg : s.get h with
    | none => rw [hg] at hd; cases hd
    | some w =>
      rw [hg] at hd
      simp only at hd
      by_cases hrc : w.ref_count = 1
      · rw [if_pos hrc] at hd
        cases hf : List.foldl
            (fun acc c => acc.bind fun st => ProcessStore.dec_ref fuel st c)
            (some (s.set h { w with ref_count := 0 })) w.linked with
        | none => rw [hf] at hd; cases hd
        | some s2 =>
          rw [hf] at hd
          cases hd
          exact shrinksTrans (shrinksTrans (Shrinks.set_ref_count hg 0)
            (foldl_dec_shrinks ih w.linked _ s2 hf)) (Shrinks.remove s2 h)
      · rw [if_neg hrc] at hd
        cases hd
        exact Shrinks.set_ref_count hg _

theorem capsFree_shrinks (fuel : Nat) :
    ∀ (caps : List Capability) (s s' : ProcessStore),
      capsFree fuel s caps = some s' → Shrinks s s' := by
  intro caps
  induction caps with
  | nil => intro s s' hc; cases hc; exact shrinksRefl s
  | cons c rest ih =>
    intro s s' hc
    unfold capsFree at hc
    cases hd : Capability.free fuel c s with
    | none => rw [hd] at hc; cases hc
    | some s1 =>
      rw [hd] at hc
      exact shrinksTrans (dec_ref_shrinks fuel s c.handle s1 hd) (ih s1 s' hc)

theorem message_free_shrinks (fuel : Nat) (m : Message) {s s' : ProcessStore}
    (hf : Message.free fuel m s = some s') : Shrinks s s' :=
  capsFree_shrinks fuel m.caps s s' hf

/-! ### Sending unlink signals

`send_signal` with an `Unlink` signal never frees a slot and never changes
an alive flag: it either appends to the target's mailbox or, when the
signal is not delivered, runs `Signal.free`, which for `Unlink` is an
`inc_ref` of the subject (see the note at `Signal.free`). -/

theorem send_signal_unlink_isSome {fuel : Nat} {s : ProcessStore} {c subj : Nat}
    {w : ProcessWrapper} (hc : s.get c = some w) (hsubj : (s.get subj).isSome = true) :
    (ProcessStore.send_signal fuel s c (Signal.unlink subj)).isSome = true := by
  obtain ⟨ws, hws⟩ := Option.isSome_iff_exists.mp hsubj
  unfold ProcessStore.send_signal
  rw [hc]
  simp only
  by_cases hal : w.is_alive = true
  · rw [if_pos hal]
    by_cases hacc : w.accepts = true
    · rw [if_pos hacc]; rfl
    · rw [if_neg hacc]
      show ((s.inc_ref subj).isSome = true)
      unfold ProcessStore.inc_ref
      rw [hws]
      rfl
  · rw [if_neg hal]
    show ((s.inc_ref subj).isSome = true)
    unfold ProcessStore.inc_ref
    rw [hws]
    rfl

theorem send_signal_unlink_cases {fuel : Nat} {s : ProcessStore} {c subj : Nat}
    {s' : ProcessStore}
    (hss : ProcessStore.send_signal fuel s c (Signal.unlink subj) = some s') :
    (∀ g, (s'.get g).isSome = (s.get g).isSome)
    ∧ (∀ g, (s'.get g).map (fun w => w.is_alive) = (s.get g).map (fun w => w.is_alive))
    ∧ (∀ g, g ≠ c → g ≠ subj → s'.get g = s.get g) := by
  unfold ProcessStore.send_signal at hss
  cases hc : s.get c with
  | none => rw [hc] at hss; cases hss
  | some w =>
    rw [hc] at hss
    simp only at hss
    have free_case : ProcessStore.inc_ref s subj = some s' →
        (∀ g, (s'.get g).isSome = (s.get g).isSome)
        ∧ (∀ g, (s'.get g).map (fun w2 => w2.is_alive) =
            (s.get g).map (fun w2 => w2.is_alive))
        ∧ (∀ g, g ≠ c → g ≠ subj → s'.get g = s.get g) := by
      intro hinc
      unfold ProcessStore.inc_ref at hinc
      cases hws : s.get subj with
      | none => rw [hws] at hinc; cases hinc
      | some ws =>
        rw [hws] at hinc
        cases hinc
        refine ⟨fun g => ProcessStore.isSome_get_set hws _ g, fun g => ?_, fun g _ hg2 =>
          ProcessStore.get_set_ne s subj _ hg2⟩
        by_cases hg : g = subj
        · subst hg
          rw [ProcessStore.get_set_self hws, hws]
          rfl
        · rw [ProcessStore.get_set_ne s subj _ hg]
    by_cases hal : w.is_alive = true
    · rw [if_pos hal] at hss
      by_cases hacc : w.accepts = true
      · rw [if_pos hacc] at hss
        cases hss
        refine ⟨fun g => ProcessStore.isSome_get_set hc _ g, fun g => ?_, fun g hg1 _ =>
          ProcessStore.get_set_ne s c _ hg1⟩
        by_cases hg : g = c
        · subst hg
          rw [ProcessStore.get_set_self hc, hc]
          rfl
        · rw [ProcessStore.get_set_ne s c _ hg]
      · rw [if_neg hacc] at hss
        exact free_case hss
    · rw [if_neg hal] at hss
      exact free_case hss

theorem send_signal_unlink_deliver {fuel : Nat} {s : ProcessStore} {c subj : Nat}
    {w : ProcessWrapper} (hc : s.get c = some w) (hal : w.is_alive = true)
    (hacc : w.accepts = true) :
    ProcessStore.send_signal fuel s c (Signal.unlink subj) =
      some (s.set c { w with mailbox := w.mailbox ++ [Signal.unlink subj] }) := by
  unfold ProcessStore.send_signal
  rw [hc]
  simp only [if_pos hal, if_pos hacc]

theorem sendUnlinks_preserves (fuel subj : Nat) :
    ∀ (l : List Nat) (s s' : ProcessStore), sendUnlinks fuel subj s l = some s' →
      (∀ g, (s'.get g).isSome = (s.get g).isSome)
      ∧ (∀ g, (s'.get g).map (fun w => w.is_alive) = (s.get g).map (fun w => w.is_alive)) := by
  intro l
  induction l with
  | nil =>
    intro s s' hs
    cases hs
    exact ⟨fun g => rfl, fun g => rfl⟩
  | cons c rest ih =>
    intro s s' hs
    unfold sendUnlinks at hs
    cases hstep : ProcessStore.send_signal fuel s c (Signal.unlink subj) with
    | none => rw [hstep] at hs; cases hs
    | some s1 =>
      rw [hstep] at hs
      obtain ⟨h1some, h1alive, -⟩ := send_signal_unlink_cases hstep
      obtain ⟨h2some, h2alive⟩ := ih s1 s' hs
      exact ⟨fun g => (h2some g).trans (h1some g), fun g => (h2alive g).trans (h1alive g)⟩

theorem sendUnlinks_ok_skip (fuel subj b : Nat) (hbs : b ≠ subj) :
    ∀ (l : List Nat) (s : ProcessStore),
      (∀ c ∈ l, (s.get c).isSome = true) → (s.get subj).isSome = true → b ∉ l →
      ∃ s', sendUnlinks fuel subj s l = some s' ∧ s'.get b = s.get b := by
  intro l
  induction l with
  | nil => intro s _ _ _; exact ⟨s, rfl, rfl⟩
  | cons c rest ih =>
    intro s hval hsubj hb
    obtain ⟨w, hw⟩ := Option.isSome_iff_exists.mp (hval c (List.mem_cons_self c rest))
    have hstep := @send_signal_unlink_isSome fuel s c subj w hw hsubj
    obtain ⟨s1, hs1⟩ := Option.isSome_iff_exists.mp hstep
    obtain ⟨h1some, -, h1skip⟩ := send_signal_unlink_cases hs1
    have hbc : b ≠ c := fun e => hb (e ▸ List.mem_cons_self c rest)
    obtain ⟨s', hrest, hrb⟩ := ih s1
      (fun d hd => (h1some d).trans (hval d (List.mem_cons_of_mem c hd)))
      ((h1some subj).trans hsubj)
      (fun hmem => hb (List.mem_cons_of_mem c hmem))
    refine ⟨s', ?_, hrb.trans (h1skip b hbc hbs)⟩
    unfold sendUnlinks
    rw [hs1]
    exact hrest

theorem sendUnlinks_cons (fuel subj : Nat) (s : ProcessStore) (c : Nat) (rest : List Nat) :
    sendUnlinks fuel subj s (c :: rest) =
      match ProcessStore.send_signal fuel s c (Signal.unlink subj) with
      | none => none
      | some s2 => sendUnlinks fuel subj s2 rest := rfl

theorem sendUnlinks_append (fuel subj : Nat) :
    ∀ (l1 l2 : List Nat) (s : ProcessStore),
      sendUnlinks fuel subj s (l1 ++ l2) =
        (sendUnlinks fuel subj s l1).bind fun s2 => sendUnlinks fuel subj s2 l2 := by
  intro l1
  induction l1 with
  | nil => intro l2 s; rfl
  | cons c rest ih =>
    intro l2 s
    rw [List.cons_append, sendUnlinks_cons, sendUnlinks_cons]
    cases hstep : ProcessStore.send_signal fuel s c (Signal.unlink subj) with
    | none => rfl
    | some s1 => exact ih l2 s1

theorem inc_ref_eq {s : ProcessStore} {h : Nat} {w : ProcessWrapper}
    (hw : s.get h = some w) :
    s.inc_ref h = some (s.set h { w with ref_count := (w.ref_count + 1) % 2 ^ 64 }) := by
  unfold ProcessStore.inc_ref
  rw [hw]

/-- C7.  For every store, handle and fuel, `kill; kill` equals a single
`kill`: the first kill flips the alive flag, and a second kill of the same
handle reads `is_alive = false` (preserved by the unlink fan-out, which
never frees a slot and never changes an alive flag) and returns the store
unchanged, delivering nothing and draining nothing. -/
theorem c7_kill_idempotent (fuel : Nat) (s : ProcessStore) (h : Nat) :
    (ProcessStore.kill fuel s h).bind (fun s2 => ProcessStore.kill fuel s2 h) =
      ProcessStore.kill fuel s h := by
  cases hk : ProcessStore.kill fuel s h with
  | none => rfl
  | some s2 =>
    show ProcessStore.kill fuel s2 h = some s2
    unfold ProcessStore.kill at hk
    cases hg : s.get h with
    | none => rw [hg] at hk; cases hk
    | some w =>
      rw [hg] at hk
      simp only at hk
      by_cases hal : w.is_alive = true
      · rw [if_pos hal] at hk
        obtain ⟨-, halive⟩ := sendUnlinks_preserves fuel h w.linked _ s2 hk
        have hh := halive h
        rw [ProcessStore.get_set_self hg] at hh
        cases hq : s2.get h with
        | none => rw [hq] at hh; cases hh
        | some w' =>
          rw [hq] at hh
          have hw' : w'.is_alive = false := by
            simpa using hh
          unfold ProcessStore.kill
          rw [hq]
          simp only
          rw [if_neg (fun hcontra => by rw [hw'] at hcontra; cases hcontra)]
      · rw [if_neg hal] at hk
        cases hk
        unfold ProcessStore.kill
        rw [hg]
        simp only
        rw [if_neg hal]

theorem sendUnlinks_nil (fuel subj : Nat) (s : ProcessStore) :
    sendUnlinks fuel subj s [] = some s := rfl

/-- Killing a live subject whose link list ends in a live, accepting
object `b` (not occurring earlier in the list) appends exactly one
`Unlink {subject}` to `b`'s mailbox. -/
theorem kill_mailbox (fuel : Nat) {s : ProcessStore} {a b : Nat} {wa wb : ProcessWrapper}
    (ha : s.get a = some wa) (hb : s.get b = some wb)
    (haal : wa.is_alive = true) (hbal : wb.is_alive = true) (hbacc : wb.accepts = true)
    (hne : a ≠ b) (l0 : List Nat) (hl0 : wa.linked = l0 ++ [b]) (hbnot : b ∉ l0)
    (hl0v : ∀ c ∈ l0, (s.get c).isSome = true) :
    (ProcessStore.kill fuel s a).map (fun s4 => s4.mailboxOf b) =
      some (some (wb.mailbox ++ [Signal.unlink a])) := by
  unfold ProcessStore.kill
  rw [ha]
  simp only
  rw [if_pos haal, hl0]
  have hs4a := ProcessStore.get_set_self ha
    (⟨false, [], wa.ref_count, wa.accepts,
      if wa.accepts = true then wa.mailbox ++ [Signal.kill] else wa.mailbox⟩ : ProcessWrapper)
  have hs4b : ((s.set a
      (⟨false, [], wa.ref_count, wa.accepts,
        if wa.accepts = true then wa.mailbox ++ [Signal.kill] else wa.mailbox⟩ :
          ProcessWrapper)).get b) = some wb :=
    (ProcessStore.get_set_ne s a _ (Ne.symm hne)).trans hb
  rw [sendUnlinks_append]
  obtain ⟨s5, hs5, hs5b⟩ := sendUnlinks_ok_skip fuel a b (Ne.symm hne) l0
    (s.set a
      (⟨false, [], wa.ref_count, wa.accepts,
        if wa.accepts = true then wa.mailbox ++ [Signal.kill] else wa.mailbox⟩ : ProcessWrapper))
    (fun c hc => (ProcessStore.isSome_get_set ha _ c).trans (hl0v c hc))
    (by rw [hs4a]; rfl) hbnot
  rw [hs5]
  simp only [Option.some_bind]
  have hs5b2 : s5.get b = some wb := hs5b.trans hs4b
  rw [sendUnlinks_cons, send_signal_unlink_deliver hs5b2 hbal hbacc]
  simp only
  rw [sendUnlinks_nil]
  show some (ProcessStore.mailboxOf _ b) = _
  unfold ProcessStore.mailboxOf
  rw [ProcessStore.get_set_self hs5b2]
  rfl

/-- C6.  With `a` and `b` alive (and `b`'s mock entry accepting), `b` not
yet linked from `a` and every existing link target of `a` valid, the
sequence `link(a,b); link(a,b); kill(a)` delivers exactly one
`Unlink {subject := a}` to `b`: the second link is a no-op because the
object is already in `a`'s `linked` list, and the drain of the kill sends
one unlink per `linked` entry, of which `b` is one. -/
theorem c6_double_link_single_unlink (fuel : Nat) (s : ProcessStore) (a b : Nat)
    (wa wb : ProcessWrapper)
    (ha : s.get a = some wa) (hb : s.get b = some wb)
    (haal : wa.is_alive = true) (hbal : wb.is_alive = true) (hbacc : wb.accepts = true)
    (hne : a ≠ b) (hnl : wa.linked.contains b = false)
    (hlv : ∀ c ∈ wa.linked, (s.get c).isSome = true) :
    (((ProcessStore.link fuel s a b).bind fun s2 => ProcessStore.link fuel s2 a b).bind
        fun s3 => ProcessStore.kill fuel s3 a).map (fun s4 => s4.mailboxOf b) =
      some (some (wb.mailbox ++ [Signal.unlink a])) := by
  have hbnot : b ∉ wa.linked := fun hm =>
    Bool.noConfusion ((List.elem_eq_true_of_mem hm).symm.trans hnl)
  have hcneg : ¬(wa.linked.contains b = true) := fun hc => by rw [hc] at hnl; cases hnl
  have hsb : ((s.set b
      { wb with ref_count := (wb.ref_count + 1) % 2 ^ 64 }).get a) = some wa :=
    (ProcessStore.get_set_ne s b _ hne).trans ha
  have hlink1 : ProcessStore.link fuel s a b =
      some ((s.set b { wb with ref_count := (wb.ref_count + 1) % 2 ^ 64 }).set a
        { wa with linked := wa.linked ++ [b] }) := by
    unfold ProcessStore.link
    rw [ha]
    simp only
    rw [if_pos haal, if_neg hcneg, inc_ref_eq hb]
    simp only
    rw [hsb]
  have hs3a := ProcessStore.get_set_self hsb { wa with linked := wa.linked ++ [b] }
  have hs3b : (((s.set b { wb with ref_count := (wb.ref_count + 1) % 2 ^ 64 }).set a
      { wa with linked := wa.linked ++ [b] }).get b) =
      some { wb with ref_count := (wb.ref_count + 1) % 2 ^ 64 } :=
    (ProcessStore.get_set_ne _ a _ (Ne.symm hne)).trans (ProcessStore.get_set_self hb _)
  have hlink2 : ProcessStore.link fuel
      ((s.set b { wb with ref_count := (wb.ref_count + 1) % 2 ^ 64 }).set a
        { wa with linked := wa.linked ++ [b] }) a b =
      some ((s.set b { wb with ref_count := (wb.ref_count + 1) % 2 ^ 64 }).set a
        { wa with linked := wa.linked ++ [b] }) := by
    unfold ProcessStore.link
    rw [hs3a]
    simp only
    rw [if_pos haal,
      if_pos (List.elem_eq_true_of_mem (List.mem_append_right wa.linked (List.Mem.head [])))]
  rw [hlink1]
  simp only [Option.some_bind]
  rw [hlink2]
  simp only [Option.some_bind]
  have hfin := kill_mailbox fuel hs3a hs3b haal hbal hbacc hne wa.linked rfl hbnot
    (fun c hc => ((ProcessStore.isSome_get_set hsb _ c).trans
      (ProcessStore.isSome_get_set hb _ c)).trans (hlv c hc))
  exact hfin

/-- C1 (code bug).  The claim says `Signal::free` on `Unlink {subject}`
decrements the subject's reference count by one (so that clone-then-free
is neutral).  The source instead calls `store.inc_ref(subject)` in the
`Unlink` arm of `free` (store.rs line 307), contradicting its own doc
comment ("Safely frees this signal and any references within the store")
and the spec.  On a one-entry store with count 1, freeing `Unlink {0}`
yields count 2 where the claim demands 0; cloning (correctly) also
yields 2. -/
theorem c1_signal_free_increments_subject :
    ((Signal.free 1 (Signal.unlink 0) ⟨[some ⟨true, [], 1, false, []⟩]⟩).map
        fun s2 => s2.refCount 0) = some (some 2)
    ∧ ((Signal.clone (Signal.unlink 0) ⟨[some ⟨true, [], 1, false, []⟩]⟩).map
        fun p => p.2.refCount 0) = some (some 2) := by decide

/-- C2 (code bug).  The claim (and the repository's own test
`tests::cyclic_linking_deref`) says that after `link(a,b); link(b,a);
dec_ref(a); dec_ref(b)` on two freshly inserted processes both entries are
removed.  In the source each `link` increments the object's count, so both
counts are 2 when the decrements run, each decrement only brings a count
back to 1, no removal cascade ever starts, and both entries remain in the
store (with no signals delivered).  The first conjunct checks the two
inserts produce exactly the two-entry store used by the trace. -/
theorem c2_cyclic_link_entries_remain :
    ((ProcessStore.insert (ProcessStore.insert ⟨[]⟩ false).2 false).2 =
      (⟨[some ⟨true, [], 1, false, []⟩, some ⟨true, [], 1, false, []⟩]⟩ : ProcessStore))
    ∧ ((((ProcessStore.link 4
            ⟨[some ⟨true, [], 1, false, []⟩, some ⟨true, [], 1, false, []⟩]⟩ 0 1).bind
          fun s2 => ProcessStore.link 4 s2 1 0).bind
          fun s3 => (ProcessStore.dec_ref 4 s3 0).bind
            fun s4 => ProcessStore.dec_ref 4 s4 1).map
        (fun s5 => (s5.contains 0, s5.contains 1, s5.refCount 0, s5.refCount 1)) =
      some (true, true, some 1, some 1)) := by decide

/-- C3 (code bug).  The claim (and the repository's own test
`tests::get_dead`) says `Registry::get` returns `None` for a service whose
process has been killed.  The source's `get` only looks the name up in the
map and clones the stored capability; it never consults `is_alive`.  With
service "test" bound to a capability for handle 0 and handle 0 killed,
`get` returns `Some` of a clone (and increments the dead entry's count). -/
theorem c3_registry_get_dead_returns_capability :
    (ProcessStore.kill 2 ⟨[some ⟨true, [], 1, false, []⟩]⟩ 0 =
      some ⟨[some ⟨false, [], 1, false, []⟩]⟩)
    ∧ (ProcessStore.is_alive ⟨[some ⟨false, [], 1, false, []⟩]⟩ 0 = some false)
    ∧ (Registry.get ⟨[("test", ⟨0, 0⟩)]⟩ ⟨[some ⟨false, [], 1, false, []⟩]⟩ "test" =
        some (⟨0, 0⟩, ⟨[some ⟨false, [], 2, false, []⟩]⟩)) := by decide

/-- C4 (counterexample).  The claim says `link(s, o)` with `s` already dead
increases `s`'s reference count exactly once.  Concretely: handle 0 is
killed, handle 1 is alive and accepting, both counts 1.  After
`link(0, 1)` the subject's count is still 1 (the source increments the
OBJECT, whose count becomes 2), refuting the claim; the unlink signal is
delivered to the object as claimed. -/
theorem c4_counterexample :
    ((ProcessStore.kill 2 ⟨[some ⟨true, [], 1, false, []⟩, some ⟨true, [], 1, true, []⟩]⟩
        0).bind fun s2 => ProcessStore.link 2 s2 0 1).map
      (fun s3 => (s3.refCount 0, s3.refCount 1, s3.mailboxOf 1)) =
      some (some 1, some 2, some [Signal.unlink 0]) := by decide

/-- C4 (amended).  For a dead subject and a live accepting object (distinct
handles), `link(subject, object)` immediately delivers `Unlink {subject}`
to the object and increments the OBJECT's reference count exactly once;
the subject's count is unchanged by the call. -/
theorem c4_link_dead_delivers_unlink (fuel : Nat) (s : ProcessStore) (sub ob : Nat)
    (ws wo : ProcessWrapper) (hs : s.get sub = some ws) (ho : s.get ob = some wo)
    (hdead : ws.is_alive = false) (hoal : wo.is_alive = true) (hoacc : wo.accepts = true)
    (hne : sub ≠ ob) :
    (ProcessStore.link fuel s sub ob).map
        (fun s2 => (s2.refCount sub, s2.refCount ob, s2.mailboxOf ob)) =
      some (some ws.ref_count, some ((wo.ref_count + 1) % 2 ^ 64),
        some (wo.mailbox ++ [Signal.unlink sub])) := by
  unfold ProcessStore.link
  rw [hs]
  simp only
  rw [if_neg (fun hc => by rw [hdead] at hc; cases hc), inc_ref_eq ho]
  simp only
  have h1 := ProcessStore.get_set_self ho { wo with ref_count := (wo.ref_count + 1) % 2 ^ 64 }
  rw [send_signal_unlink_deliver h1 hoal hoacc]
  unfold ProcessStore.refCount ProcessStore.mailboxOf
  simp only [Option.map_some']
  rw [ProcessStore.get_set_ne _ ob _ hne, ProcessStore.get_set_ne _ ob _ hne, hs,
    ProcessStore.get_set_self h1]
  rfl

/-- C4 (witness for the amended theorem): the amended statement holds at
the concrete two-process store of the counterexample. -/
theorem c4_witness :
    (ProcessStore.link 2 ⟨[some ⟨false, [], 1, false, []⟩, some ⟨true, [], 1, true, []⟩]⟩
        0 1).map (fun s2 => (s2.refCount 0, s2.refCount 1, s2.mailboxOf 1)) =
      some (some 1, some 2, some ([] ++ [Signal.unlink 0])) :=
  c4_link_dead_delivers_unlink 2 ⟨[some ⟨false, [], 1, false, []⟩, some ⟨true, [], 1, true, []⟩]⟩
    0 1 ⟨false, [], 1, false, []⟩ ⟨true, [], 1, true, []⟩ rfl rfl rfl rfl rfl (by decide)

/-- C5 (counterexample).  The claim says that sending to a dead handle
frees the message's capabilities and that the handle "remains valid with
its prior references".  In the spec's own scenario — insert `h`, `kill(h)`,
`send(h, Message {data := [1,2,3], caps := [h]})` — freeing the carried
capability decrements `h`'s only reference, so `h` is removed from the
store (exactly as the repository's `tests::safe_message_drop` expects for
the reject path), refuting the validity conjunct. -/
theorem c5_counterexample :
    ((ProcessStore.kill 2 ⟨[some ⟨true, [], 1, true, []⟩]⟩ 0).bind fun s2 =>
        ProcessStore.send 2 s2 0 ⟨[1, 2, 3], [⟨0, 0⟩]⟩).map (fun s3 => s3.contains 0) =
      some false := by decide

/-- C5 (amended).  Sending any message to a dead handle delivers nothing
and acts on the store exactly as `Message::free`: each carried capability
is freed (`dec_ref`) in order; every surviving entry keeps its mailbox,
alive flag and link list; and when the message carries no capabilities the
store is completely unchanged — so the handle keeps its prior references
exactly when no freed reference reaches it. -/
theorem c5_send_dead_frees_message (fuel : Nat) (s : ProcessStore) (h : Nat) (m : Message)
    (w : ProcessWrapper) (hh : s.get h = some w) (hdead : w.is_alive = false) :
    ProcessStore.send fuel s h m = Message.free fuel m s
    ∧ (∀ s', Message.free fuel m s = some s' → ∀ g w', s'.get g = some w' →
        ∃ w0, s.get g = some w0 ∧ w'.mailbox = w0.mailbox ∧ w'.is_alive = w0.is_alive
          ∧ w'.linked = w0.linked)
    ∧ (m.caps = [] → ProcessStore.send fuel s h m = some s) := by
  have hsend : ProcessStore.send fuel s h m = Message.free fuel m s := by
    unfold ProcessStore.send ProcessStore.send_signal
    rw [hh]
    simp only
    rw [if_neg (fun hc => by rw [hdead] at hc; cases hc)]
    rfl
  refine ⟨hsend, ?_, ?_⟩
  · intro s' hf g w' hg
    obtain ⟨w0, hw0, eshr⟩ := message_free_shrinks fuel m hf g w' hg
    exact ⟨w0, hw0, eshr.2.2.2, eshr.1, eshr.2.1⟩
  · intro hcaps
    rw [hsend]
    unfold Message.free
    rw [hcaps]
    rfl

/-- C5 (witness for the amended theorem): a concrete killed single-entry
store; a capability-free message leaves the store unchanged. -/
theorem c5_witness :
    ProcessStore.send 2 ⟨[some ⟨false, [], 1, true, [Signal.kill]⟩]⟩ 0 ⟨[1, 2, 3], []⟩ =
      some ⟨[some ⟨false, [], 1, true, [Signal.kill]⟩]⟩ :=
  (c5_send_dead_frees_message 2 ⟨[some ⟨false, [], 1, true, [Signal.kill]⟩]⟩ 0
    ⟨[1, 2, 3], []⟩ ⟨false, [], 1, true, [Signal.kill]⟩ rfl rfl).2.2 rfl

theorem lookup_removeService (l : List (String × Capability)) (n : String) :
    lookupService (removeService l n) n = none := by
  induction l with
  | nil => rfl
  | cons p rest ih =>
    obtain ⟨m, c⟩ := p
    unfold removeService
    by_cases hm : m = n
    · rw [if_pos hm]; exact ih
    · rw [if_neg hm]; unfold lookupService; rw [if_neg hm]; exact ih

/-- C8.  `Registry::insert` returns the previous binding (`None` when the
name was unbound) and leaves the name bound to the new capability; in the
replacement scenario the first insert of an unbound name returns `none`,
the second returns the first capability, and a subsequent `get` returns a
clone of the second capability — same handle and flags — while
incrementing the target's reference count in the store. -/
theorem c8_registry_insert_replace (r : Registry) (s : ProcessStore) (n : String)
    (c c1 c2 : Capability) (w : ProcessWrapper)
    (hn : lookupService r.services n = none) (hc2 : s.get c2.handle = some w) :
    ((r.insert n c).2 = lookupService r.services n)
    ∧ (lookupService (r.insert n c).1.services n = some c)
    ∧ ((r.insert n c1).2 = none)
    ∧ (((r.insert n c1).1.insert n c2).2 = some c1)
    ∧ (((r.insert n c1).1.insert n c2).1.get s n =
        some (⟨c2.handle, c2.flags⟩,
          s.set c2.handle { w with ref_count := (w.ref_count + 1) % 2 ^ 64 })) := by
  refine ⟨rfl, ?_, hn, ?_, ?_⟩
  · show lookupService ((n, c) :: removeService r.services n) n = some c
    unfold lookupService
    rw [if_pos rfl]
  · show lookupService ((n, c1) :: removeService r.services n) n = some c1
    unfold lookupService
    rw [if_pos rfl]
  · have hlook : lookupService (((r.insert n c1).1.insert n c2).1.services) n = some c2 := by
      show lookupService ((n, c2) :: removeService (r.insert n c1).1.services n) n = some c2
      unfold lookupService
      rw [if_pos rfl]
    unfold Registry.get
    rw [hlook]
    simp only
    unfold Capability.clone
    rw [inc_ref_eq hc2]
    rfl

/-- C8 (witness): the replacement scenario at a concrete one-entry store,
registering "svc" twice and reading it back. -/
theorem c8_witness :
    ((Registry.insert (Registry.insert ⟨[]⟩ "svc" ⟨0, 1⟩).1 "svc" ⟨0, 2⟩).1.get
        ⟨[some ⟨true, [], 1, false, []⟩]⟩ "svc") =
      some (⟨0, 2⟩, ⟨[some ⟨true, [], 2, false, []⟩]⟩) :=
  (c8_registry_insert_replace ⟨[]⟩ ⟨[some ⟨true, [], 1, false, []⟩]⟩ "svc" ⟨0, 7⟩ ⟨0, 1⟩
    ⟨0, 2⟩ ⟨true, [], 1, false, []⟩ rfl rfl).2.2.2.2

theorem vacantIndex_le_length {α : Type} (l : List (Option α)) : vacantIndex l ≤ l.length := by
  induction l with
  | nil => exact Nat.le_refl 0
  | cons o rest ih =>
    cases o with
    | none => exact Nat.zero_le _
    | some x => exact Nat.succ_le_succ ih

theorem slabGet_vacantIndex (slab : List (Option LocalLump)) :
    slabGet slab (vacantIndex slab) = none := by
  induction slab with
  | nil => rfl
  | cons o rest ih =>
    cases o with
    | none =>
      show slabGet (none :: rest) 0 = none
      unfold slabGet
      rw [List.getElem?_cons_zero]
    | some x =>
      show slabGet (some x :: rest) (vacantIndex rest + 1) = none
      unfold slabGet
      rw [List.getElem?_cons_succ]
      exact ih

theorem slabInsert_spec (slab : List (Option LocalLump)) (x : LocalLump) :
    slabGet slab (slabInsert slab x).1 = none
    ∧ slabGet (slabInsert slab x).2 (slabInsert slab x).1 = some x
    ∧ ∀ g, g ≠ (slabInsert slab x).1 → slabGet (slabInsert slab x).2 g = slabGet slab g := by
  unfold slabInsert
  by_cases hlt : vacantIndex slab < slab.length
  · rw [if_pos hlt]
    refine ⟨slabGet_vacantIndex slab, ?_, ?_⟩
    · unfold slabGet
      rw [List.getElem?_set_self hlt]
    · intro g hg
      unfold slabGet
      rw [List.getElem?_set_ne (fun e => hg e.symm)]
  · rw [if_neg hlt]
    have hv : vacantIndex slab = slab.length :=
      Nat.le_antisymm (vacantIndex_le_length slab) (Nat.le_of_not_lt hlt)
    refine ⟨slabGet_vacantIndex slab, ?_, ?_⟩
    · unfold slabGet
      rw [hv, List.getElem?_concat_length]
    · intro g hg
      rw [hv] at hg
      unfold slabGet
      by_cases hgl : g < slab.length
      · rw [List.getElem?_append_left hgl]
      · rw [List.getElem?_eq_none (l := slab) (Nat.le_of_not_lt hgl),
          List.getElem?_eq_none]
        simp only [List.length_append, List.length_cons, List.length_nil]
        omega

/-- C9.  For an id read from guest memory, `LumpAbi::from_id` fails with a
diagnostic string and leaves the per-guest slab untouched when the host
lump store has no blob with that id; otherwise it inserts the blob into a
vacant slot of the slab and returns that slot's index, leaving the host
store and every other slab slot unchanged. -/
theorem c9_lump_from_id (abi : LumpAbi) (id : List Nat) (hid : id.length = 32) :
    (abi.lump_store.get_lump id = none →
      (abi.from_id id).2 = abi
      ∧ (abi.from_id id).1 = Except.error "lump id not found in lump store")
    ∧ (∀ bytes, abi.lump_store.get_lump id = some bytes →
        (abi.from_id id).1 = Except.ok (slabInsert abi.lump_handles ⟨id, bytes⟩).1
        ∧ slabGet abi.lump_handles (slabInsert abi.lump_handles ⟨id, bytes⟩).1 = none
        ∧ slabGet (abi.from_id id).2.lump_handles
            (slabInsert abi.lump_handles ⟨id, bytes⟩).1 = some ⟨id, bytes⟩
        ∧ (abi.from_id id).2.lump_store = abi.lump_store
        ∧ ∀ g, g ≠ (slabInsert abi.lump_handles ⟨id, bytes⟩).1 →
            slabGet (abi.from_id id).2.lump_handles g = slabGet abi.lump_handles g) := by
  constructor
  · intro hnone
    unfold LumpAbi.from_id
    rw [hnone]
    exact ⟨rfl, rfl⟩
  · intro bytes hsome
    have hfrom : abi.from_id id =
        (Except.ok (slabInsert abi.lump_handles ⟨id, bytes⟩).1,
          { abi with lump_handles := (slabInsert abi.lump_handles ⟨id, bytes⟩).2 }) := by
      unfold LumpAbi.from_id
      rw [hsome]
    obtain ⟨h1, h2, h3⟩ := slabInsert_spec abi.lump_handles ⟨id, bytes⟩
    rw [hfrom]
    exact ⟨rfl, h1, h2, rfl, h3⟩

/-- C9 (witness): a host store holding one blob under a 32-byte id; the
present-blob branch of the theorem applies and returns a slab handle. -/
theorem c9_witness :
    ((⟨⟨[(List.replicate 32 0, [7, 8])]⟩, []⟩ : LumpAbi).from_id (List.replicate 32 0)).1 =
      Except.ok (slabInsert [] ⟨List.replicate 32 0, [7, 8]⟩).1 :=
  ((c9_lump_from_id ⟨⟨[(List.replicate 32 0, [7, 8])]⟩, []⟩ (List.replicate 32 0)
      (by decide)).2 [7, 8] (by decide)).1

/-- C10.  Packing a peer id (high 32 bits) and a local process id (low 32
bits) into a `ProcessId` and splitting it back are mutually inverse: split
after pack returns the pair, and pack after split returns the original id
(for in-range `u32`/`u64` values). -/
theorem c10_pid_split_roundtrip (peer : PeerId) (pid : LocalProcessId) (x : ProcessId)
    (hp : peer.val < 2 ^ 32) (hl : pid.val < 2 ^ 32) (hx : x.val < 2 ^ 64) :
    (ProcessId.from_peer_process peer pid).split = (peer, pid)
    ∧ ProcessId.from_peer_process x.split.1 x.split.2 = x := by
  obtain ⟨pv⟩ := peer
  obtain ⟨lv⟩ := pid
  obtain ⟨xv⟩ := x
  have hp2 : pv < 2 ^ 32 := hp
  have hl2 : lv < 2 ^ 32 := hl
  have hx2 : xv < 2 ^ 64 := hx
  constructor
  · simp only [ProcessId.from_peer_process, ProcessId.split, Prod.mk.injEq,
      PeerId.mk.injEq, LocalProcessId.mk.injEq]
    have hor : (pv <<< 32) ||| lv = 2 ^ 32 * pv + lv := by
      rw [Nat.shiftLeft_eq, Nat.mul_comm]
      exact (Nat.mul_add_lt_is_or hl2 pv).symm
    rw [hor, Nat.shiftRight_eq_div_pow]
    omega
  · simp only [ProcessId.from_peer_process, ProcessId.split, ProcessId.mk.injEq]
    have hor2 : (((xv >>> 32) % 2 ^ 32) <<< 32) ||| (xv % 2 ^ 32) =
        2 ^ 32 * ((xv >>> 32) % 2 ^ 32) + xv % 2 ^ 32 := by
      rw [Nat.shiftLeft_eq, Nat.mul_comm]
      exact (Nat.mul_add_lt_is_or (Nat.mod_lt xv (by norm_num)) _).symm
    rw [hor2, Nat.shiftRight_eq_div_pow]
    omega

/-- C10 (witness): the round trips at the concrete values of the
repository's `pid_conversion` test and a concrete 64-bit id. -/
theorem c10_witness :
    (ProcessId.from_peer_process ⟨420⟩ ⟨69⟩).split = (⟨420⟩, ⟨69⟩)
    ∧ ProcessId.from_peer_process (ProcessId.split ⟨123456789012⟩).1
        (ProcessId.split ⟨123456789012⟩).2 = ⟨123456789012⟩ :=
  c10_pid_split_roundtrip ⟨420⟩ ⟨69⟩ ⟨123456789012⟩ (by decide) (by decide) (by decide)

/-- C6 (witness): the theorem applied to a fresh two-process store (the
subject's mock entry drops its receiver, the object's keeps it, as in the
repository's `no_double_linking` test). -/
theorem c6_witness :
    (((ProcessStore.link 1 ⟨[some ⟨true, [], 1, false, []⟩, some ⟨true, [], 1, true, []⟩]⟩
          0 1).bind fun s2 => ProcessStore.link 1 s2 0 1).bind
        fun s3 => ProcessStore.kill 1 s3 0).map (fun s4 => s4.mailboxOf 1) =
      some (some ([] ++ [Signal.unlink 0])) :=
  c6_double_link_single_unlink 1
    ⟨[some ⟨true, [], 1, false, []⟩, some ⟨true, [], 1, true, []⟩]⟩ 0 1
    ⟨true, [], 1, false, []⟩ ⟨true, [], 1, true, []⟩ rfl rfl rfl rfl rfl (by decide) rfl
    (fun c hc => absurd hc (List.not_mem_nil c))
